import Mathlib

/-!
Verification of the sr_exhibit caching and enrichment pipeline.

This development shallowly embeds the Go sources (models, the leaderboard
CSV cache, the player JSON cache, the API client resolution/backfill logic
and the merge/compose step of `run`) as executable Lean definitions and
proves the specified properties about them.

Conventions of the embedding:
* Go maps are modelled as association lists in iteration order; map
  lookup is `find?` on the key, map assignment prepends (shadowing).
* Wall-clock times (`time.Time`) are modelled as integers (seconds);
  RFC3339 renderings are carried as opaque strings.
* `Times.PrimaryT` (a float64 number of seconds that the cache persists
  with two decimals via `%.2f`) is modelled in exact arithmetic as a
  natural number of centiseconds, the precise image of that format.
* File-system side effects are modelled as explicit operation traces
  (`FsOp`), and fallible remote calls as `Option`-valued oracles.
-/

namespace SrExhibit

/-! ## Data model (models.go) -/

/-- Name style color (models.NameStyleColor). -/
structure NameStyleColor where
  light : String
  dark : String
deriving DecidableEq, Repr

/-- Player name style (models.NameStyle). -/
structure NameStyle where
  style : String
  colorFrom : Option NameStyleColor
  colorTo : Option NameStyleColor
deriving DecidableEq, Repr

/-- Modelled from the spec: the `models.Location` type referenced by
`main.go` (`PlayerData.Location.Country`) is absent from the provided
models source file; per the spec's Entity Record it carries the optional
country code. -/
structure Location where
  country : Option String
deriving DecidableEq, Repr

/-- International names block of a player (models.PlayerData.Names). -/
structure PlayerNames where
  international : String
deriving DecidableEq, Repr

/-- Detailed player data (models.PlayerData); fields not consumed by the
verified operations are omitted.  The `location` field is modelled from
the spec (see `Location`). -/
structure PlayerData where
  rel : String
  id : String
  name : String
  nameStyle : Option NameStyle
  names : PlayerNames
  location : Option Location
deriving DecidableEq, Repr

/-- Run participant (models.Player). -/
structure Player where
  rel : String
  id : String
  name : String
deriving DecidableEq, Repr

/-- A single video link (models.VideoLink). -/
structure VideoLink where
  uri : String
deriving DecidableEq, Repr

/-- Video links of a run (models.RunVideos). -/
structure RunVideos where
  links : List VideoLink
deriving DecidableEq, Repr

/-- Run time data (models.RunTimes): `primary` is the ISO-8601 duration
string, `primaryT` the elapsed time in centiseconds (see module
conventions). -/
structure RunTimes where
  primary : String
  primaryT : Nat
deriving DecidableEq, Repr

/-- Run data (models.RunData); `comment` and `values` omitted. -/
structure RunData where
  id : String
  players : List Player
  times : RunTimes
  videos : Option RunVideos
  date : String
  submitURL : String
deriving DecidableEq, Repr

/-- Leaderboard entry (models.RunEntry). -/
structure RunEntry where
  place : Nat
  run : RunData
deriving DecidableEq, Repr

/-- Game names (models.GameNames), international only. -/
structure GameNames where
  international : String
deriving DecidableEq, Repr

/-- Game (models.Game); asset/weblink fields omitted. -/
structure Game where
  id : String
  names : GameNames
  abbreviation : String
deriving DecidableEq, Repr

/-- Category (models.Category). -/
structure Category where
  id : String
  name : String
deriving DecidableEq, Repr

/-! ## Association-list primitives for Go maps -/

/-- Lookup in a Go map modelled as an association list (first matching
key wins, as assignment prepends). -/
def alLookup {α : Type} (l : List (String × α)) (k : String) : Option α :=
  (l.find? (fun p => p.1 == k)).map Prod.snd

/-- Go's `strings.Join(parts, sep)`. -/
def joinSep (sep : String) : List String → String
  | [] => ""
  | [s] => s
  | s :: rest => s ++ sep ++ joinSep sep rest

/-! ## Leaderboard cache key (cache/leaderboard.go) -/

/-- CacheKey uniquely identifies a leaderboard cache entry.  The Go
`Variables map[string]string` is an association list in iteration
order. -/
structure CacheKey where
  gameID : String
  gameName : String
  categoryID : String
  categoryName : String
  vars : List (String × String)
deriving DecidableEq, Repr

/-- Value of `k.Variables[key]` (Go map indexing; absent keys yield the
zero value, the empty string). -/
def lookupVar (vars : List (String × String)) (key : String) : String :=
  (alLookup vars key).getD ""

/-- Lexicographic comparison of character lists by code point, the
image of Go's bytewise string comparison (they agree on the ASCII ids
compared here). -/
def goCharListLe : List Char → List Char → Bool
  | [], _ => true
  | _ :: _, [] => false
  | a :: as, b :: bs =>
    if a.toNat < b.toNat then true
    else if b.toNat < a.toNat then false
    else goCharListLe as bs

/-- Go's `a <= b` on strings (see `goCharListLe`). -/
def goStrLe (a b : String) : Bool :=
  goCharListLe a.data b.data

/-- The variable keys sorted ascending, as produced by the bubble sort in
`CacheKey.String`. -/
def sortedKeys (vars : List (String × String)) : List String :=
  (vars.map Prod.fst).insertionSort (fun a b => goStrLe a b = true)

/-- The parts joined by `CacheKey.String`: game id, category id, then
`key=value` for each variable in sorted key order. -/
def CacheKey.parts (k : CacheKey) : List String :=
  k.gameID :: k.categoryID ::
    (sortedKeys k.vars).map (fun key => key ++ "=" ++ lookupVar k.vars key)

/-- CacheKey.String: the canonical string representation of the cache
key. -/
def CacheKey.string (k : CacheKey) : String :=
  joinSep "_" k.parts

/-- CacheKey.FileName: the cache file name. -/
def CacheKey.fileName (k : CacheKey) : String :=
  k.string ++ ".csv"

/-! ## Numeric and string helpers shared by the CSV cache embedding -/

/-- Whether a character is an ASCII digit. -/
def isDigitChar (c : Char) : Bool :=
  48 ≤ c.toNat && c.toNat ≤ 57

/-- Value of a digit string (most significant first). -/
def digitsVal (l : List Char) : Nat :=
  l.foldl (fun acc c => acc * 10 + (c.toNat - 48)) 0

/-- Image of `fmt.Sscanf(s, "%d", &n)` on the nonnegative digit strings
the cache writes. -/
def strToNatD (s : String) : Nat :=
  if s.data ≠ [] && s.data.all isDigitChar then digitsVal s.data else 0

/-- Two-digit zero-padded rendering of `n < 100`. -/
def pad2 (n : Nat) : String :=
  if n < 10 then "0" ++ toString n else toString n

/-- Image of `fmt.Sprintf("%.2f", seconds)` on an exact centisecond
value: the integer part, a point, and exactly two fractional digits. -/
def formatCentis (c : Nat) : String :=
  toString (c / 100) ++ "." ++ pad2 (c % 100)

/-- Split a character list at every occurrence of `sep` (accumulator is
the current field, reversed). -/
def splitOnCharAux (sep : Char) : List Char → List Char → List (List Char)
  | [], acc => [acc.reverse]
  | c :: cs, acc =>
    if c == sep then acc.reverse :: splitOnCharAux sep cs []
    else splitOnCharAux sep cs (c :: acc)

/-- Go's `strings.Split(s, sep)` for a one-character separator. -/
def strSplitOn (sep : Char) (s : String) : List String :=
  (splitOnCharAux sep s.data []).map List.asString

/-- Image of `fmt.Sscanf(s, "%f", &t)` on the two-decimal strings the
cache writes, in centiseconds. -/
def parseCentis (s : String) : Nat :=
  match strSplitOn '.' s with
  | [a] => strToNatD a * 100
  | [a, b] => strToNatD a * 100 + strToNatD b
  | _ => 0

/-- The ISO-8601 duration string `Load` re-derives from the stored
seconds value (cache/leaderboard.go lines 245-265): hours component only
if nonzero, fractional component only if nonzero.  `millis` is the Go
`int((primaryT - float64(totalSeconds)) * 100)` in exact arithmetic,
i.e. the centisecond remainder, printed with `%d` (unpadded). -/
def deriveDurationISO (centis : Nat) : String :=
  let totalSeconds := centis / 100
  let hours := totalSeconds / 3600
  let minutes := totalSeconds % 3600 / 60
  let seconds := totalSeconds % 60
  let millis := centis % 100
  if hours > 0 then
    if millis > 0 then
      "PT" ++ toString hours ++ "H" ++ toString minutes ++ "M" ++
        toString seconds ++ "." ++ toString millis ++ "S"
    else
      "PT" ++ toString hours ++ "H" ++ toString minutes ++ "M" ++ toString seconds ++ "S"
  else
    if millis > 0 then
      "PT" ++ toString minutes ++ "M" ++ toString seconds ++ "." ++ toString millis ++ "S"
    else
      "PT" ++ toString minutes ++ "M" ++ toString seconds ++ "S"

/-- Syntactic decoding of an ISO-8601 duration string of the form
`PT[<h>H]<m>M<s>[.<f>]S` into `(wholeSeconds, fracValue, fracDigits)`,
formalizing the spec's "decodes back to the same elapsedSeconds"
(see `durationSeconds` for the numeric value). -/
def decodeDurationParts (s : String) : Option (Nat × Nat × Nat) :=
  match s.data with
  | 'P' :: 'T' :: rest =>
    let hoursAndRest :=
      match splitOnCharAux 'H' rest [] with
      | [r] => some ((0 : Nat), r)
      | [h, r] => if h ≠ [] && h.all isDigitChar then some (digitsVal h, r) else none
      | _ => none
    match hoursAndRest with
    | none => none
    | some (hours, rest2) =>
      match splitOnCharAux 'M' rest2 [] with
      | [m, srest] =>
        if m ≠ [] && m.all isDigitChar then
          match srest.reverse with
          | 'S' :: secRev =>
            match splitOnCharAux '.' secRev.reverse [] with
            | [w] =>
              if w ≠ [] && w.all isDigitChar then
                some ((hours * 3600 + digitsVal m * 60 + digitsVal w, 0, 0))
              else none
            | [w, f] =>
              if (w ≠ [] && w.all isDigitChar) && (f ≠ [] && f.all isDigitChar) then
                some ((hours * 3600 + digitsVal m * 60 + digitsVal w, digitsVal f, f.length))
              else none
            | _ => none
          | _ => none
        else none
      | _ => none
  | _ => none

/-- The number of seconds denoted by decoded duration parts: whole
seconds plus the decimal fraction. -/
def durationSeconds (p : Nat × Nat × Nat) : ℚ :=
  (p.1 : ℚ) + (p.2.1 : ℚ) / ((10 : ℚ) ^ p.2.2)

/-! ## Leaderboard cache Save/Load (cache/leaderboard.go) -/

/-- Cached leaderboard data (cache.CachedLeaderboard); `cachedAt` is the
RFC3339 rendering of the timestamp. -/
structure CachedLeaderboard where
  key : CacheKey
  cachedAt : String
  game : Game
  category : Category
  runs : List RunEntry
  players : List (String × PlayerData)
deriving DecidableEq, Repr

/-- The CSV header row written by `Save` (cache/leaderboard.go lines
113-116). -/
def csvHeaderRow : List String :=
  ["rank", "player_id", "player_name", "time_seconds",
   "date", "submit_url", "run_id", "video_links"]

/-- The data row `Save` writes for one run: only the first entrant is
persisted (the Go loop breaks after one player). `none` when the run has
no players (the loop body never executes). -/
def runDataRow (players : List (String × PlayerData)) (run : RunEntry) :
    Option (List String) :=
  match run.run.players with
  | [] => none
  | player :: _ =>
    let pid := if player.rel == "user" then player.id else ""
    let pname :=
      if player.rel == "user" then
        match alLookup players player.id with
        | some pd =>
          if pd.names.international == "" then pd.name else pd.names.international
        | none => ""
      else player.name
    let videoLinks :=
      match run.run.videos with
      | some v => v.links.map VideoLink.uri
      | none => []
    some [toString run.place, pid, pname, formatCentis run.run.times.primaryT,
          run.run.date, run.run.submitURL, run.run.id, joinSep "|" videoLinks]

/-- The CSV records written by `LeaderboardCache.Save`: metadata
prologue, one `#VARIABLE` row per filter pair, the header row, then one
data row per run (first entrant only). -/
def LeaderboardCache.saveRecords (data : CachedLeaderboard) : List (List String) :=
  [["#META", "VERSION", "1"],
   ["#GAME", data.key.gameID, data.key.gameName],
   ["#CATEGORY", data.key.categoryID, data.key.categoryName],
   ["#CACHED_AT", data.cachedAt]]
  ++ data.key.vars.map (fun kv => ["#VARIABLE", kv.1, kv.2])
  ++ [csvHeaderRow]
  ++ data.runs.filterMap (runDataRow data.players)

/-- Go map assignment `m[k] = v` on an association list: replace the
existing binding or append a new one. -/
def upsert (vars : List (String × String)) (k v : String) : List (String × String) :=
  if (vars.find? (fun p => p.1 == k)).isSome then
    vars.map (fun p => if p.1 == k then (k, v) else p)
  else vars ++ [(k, v)]

/-- Parse one data record of at least 8 fields (cache/leaderboard.go
lines 239-309). -/
def parseDataRow (record : List String) : RunEntry :=
  let place := strToNatD (record.getD 0 "")
  let primaryT := parseCentis (record.getD 3 "")
  let primary := deriveDurationISO primaryT
  let videoStr := record.getD 7 ""
  let videos : Option RunVideos :=
    if videoStr == "" then none
    else some ⟨(strSplitOn '|' videoStr).map VideoLink.mk⟩
  let players : List Player :=
    if record.getD 1 "" == "" then [⟨"guest", "", record.getD 2 ""⟩]
    else [⟨"user", record.getD 1 "", ""⟩]
  { place
    run := { id := record.getD 6 "", players, times := ⟨primary, primaryT⟩,
             videos, date := record.getD 4 "", submitURL := record.getD 5 "" } }

/-- One iteration of the `Load` read loop.  Metadata rows beginning with
`#` update game/category/timestamp/variables; the header row and rows of
fewer than 8 fields are skipped; other rows append a reconstructed run.
(The Go code indexes `record[1]` unguarded in the metadata cases; the
embedding totalizes the access with the empty default, which no record
written by `Save` exercises.) -/
def LeaderboardCache.loadStep (st : CachedLeaderboard) (record : List String) :
    CachedLeaderboard :=
  match record with
  | [] => st
  | first :: _ =>
    if first.data.take 1 == ['#'] then
      if first == "#GAME" then
        let g1 := { st.game with id := record.getD 1 "" }
        let g2 := if record.length > 2 then { g1 with names := GameNames.mk (record.getD 2 "") } else g1
        { st with game := g2 }
      else if first == "#CATEGORY" then
        let c1 := { st.category with id := record.getD 1 "" }
        let c2 := if record.length > 2 then { c1 with name := record.getD 2 "" } else c1
        { st with category := c2 }
      else if first == "#CACHED_AT" then
        { st with cachedAt := record.getD 1 "" }
      else if first == "#VARIABLE" then
        if record.length > 2 then
          { st with key := { st.key with vars := upsert st.key.vars (record.getD 1 "") (record.getD 2 "") } }
        else st
      else st
    else if first == "rank" then st
    else if record.length ≥ 8 then
      { st with runs := st.runs ++ [parseDataRow record] }
    else st

/-- Initial state of `Load` (cache/leaderboard.go lines 179-185). -/
def LeaderboardCache.loadInit (key : CacheKey) : CachedLeaderboard :=
  { key, cachedAt := "", game := ⟨key.gameID, ⟨key.gameName⟩, ""⟩,
    category := ⟨key.categoryID, key.categoryName⟩, runs := [], players := [] }

/-- `LeaderboardCache.Load` on the parsed records of a cache file. -/
def LeaderboardCache.loadRecords (key : CacheKey) (records : List (List String)) :
    CachedLeaderboard :=
  records.foldl LeaderboardCache.loadStep (LeaderboardCache.loadInit key)

/-! ## File-system operation traces -/

/-- File-system side effects performed by the save paths. -/
inductive FsOp where
  | mkdirAll (dir : String)
  | writeFile (path : String) (content : String)
  | createWrite (path : String) (content : String)
  | rename (src : String) (dst : String)
deriving DecidableEq, Repr

/-- Whether an operation is a rename. -/
def FsOp.isRename : FsOp → Bool
  | .rename _ _ => true
  | _ => false

/-- Flat rendering of CSV records (the fields persisted by this cache
contain no separator characters, so `encoding/csv` quoting is the
identity on them). -/
def renderCsvRecords (records : List (List String)) : String :=
  joinSep "\x0a" (records.map (joinSep ","))

/-- Effect of one operation on a file system (paths to contents;
directories are not modelled). -/
def applyOp (fs : String → Option String) : FsOp → (String → Option String)
  | .mkdirAll _ => fs
  | .writeFile p c => fun q => if q == p then some c else fs q
  | .createWrite p c => fun q => if q == p then some c else fs q
  | .rename src dst => fun q => if q == dst then fs src else if q == src then none else fs q

/-- Effect of a trace of operations. -/
def applyOps (fs : String → Option String) (ops : List FsOp) : String → Option String :=
  ops.foldl applyOp fs

/-! ## Player cache (cache/cache.go) -/

/-- A player cache entry (cache.PlayerCacheItem); `cachedAt` in seconds. -/
structure PlayerCacheItem where
  data : PlayerData
  cachedAt : Int
deriving DecidableEq, Repr

/-- The player cache state (cache.PlayerCache). -/
structure PlayerCache where
  dir : String
  ttl : Int
  players : List (String × PlayerCacheItem)
  dirty : Bool
deriving DecidableEq, Repr

/-- The cache file path (cache/cache.go `filePath`). -/
def PlayerCache.filePath (c : PlayerCache) : String :=
  c.dir ++ "/" ++ "players.json"

/-- `PlayerCache.Get`: `none` if the id is absent or the entry is older
than the TTL; the state is returned unchanged (Get performs no
mutation). -/
def PlayerCache.Get (c : PlayerCache) (playerID : String) (now : Int) :
    Option PlayerData × PlayerCache :=
  (match alLookup c.players playerID with
   | none => none
   | some item => if now - item.cachedAt > c.ttl then none else some item.data,
   c)

/-- `PlayerCache.Set`: upsert with `cachedAt = now` and mark dirty
(modelled as a shadowing prepend). -/
def PlayerCache.Set (c : PlayerCache) (playerID : String) (data : PlayerData) (now : Int) :
    PlayerCache :=
  { c with players := (playerID, ⟨data, now⟩) :: c.players, dirty := true }

/-- `PlayerCache.Save`: no-op unless dirty; otherwise write the
serialized cache (passed in, serialization itself is not modelled) to a
temp file, rename it over the target, and clear the dirty flag. -/
def PlayerCache.Save (c : PlayerCache) (serialized : String) : List FsOp × PlayerCache :=
  if c.dirty then
    ([FsOp.writeFile (c.filePath ++ ".tmp") serialized,
      FsOp.rename (c.filePath ++ ".tmp") c.filePath],
     { c with dirty := false })
  else ([], c)

/-- The operations performed by `LeaderboardCache.Save`: ensure the
directory, then create and write the target file directly (no dirty
gate, no temp file, no rename). -/
def LeaderboardCache.SaveOps (dir : String) (data : CachedLeaderboard) : List FsOp :=
  [FsOp.mkdirAll dir,
   FsOp.createWrite (dir ++ "/" ++ data.key.fileName)
     (renderCsvRecords (LeaderboardCache.saveRecords data))]

/-! ## API client (api/client.go) -/

/-- One page of `GetGames`: the remote catalog from `offset`, at most
200 entries. -/
def Client.GetGames (catalog : List Game) (offset : Nat) : List Game :=
  (catalog.drop offset).take 200

/-- `GetAllGames` pagination loop: accumulate pages of 200 until a short
page signals the end. -/
def getAllGamesFrom (catalog : List Game) (offset : Nat) : List Game :=
  if h : (Client.GetGames catalog offset).length < 200 then
    Client.GetGames catalog offset
  else
    Client.GetGames catalog offset ++
      getAllGamesFrom catalog (offset + (Client.GetGames catalog offset).length)
termination_by catalog.length - offset
decreasing_by
  simp only [Client.GetGames, List.length_take, List.length_drop] at h ⊢
  omega

/-- `Client.GetAllGames` (api/client.go lines 83-103). -/
def Client.GetAllGames (catalog : List Game) : List Game :=
  getAllGamesFrom catalog 0

/-- ASCII lowering of a string (image of `strings.ToLower` on the ASCII
names compared here). -/
def strToLower (s : String) : String :=
  ⟨s.data.map Char.toLower⟩

/-- Go's `strings.EqualFold` (ASCII case folding). -/
def eqFold (a b : String) : Bool :=
  strToLower a == strToLower b

/-- Whether `needle` is an initial segment of `hay`. -/
def startsList : List Char → List Char → Bool
  | [], _ => true
  | _ :: _, [] => false
  | a :: as, b :: bs => a == b && startsList as bs

/-- Whether `needle` occurs contiguously in `hay`. -/
def containsList (hay needle : List Char) : Bool :=
  if startsList needle hay then true
  else
    match hay with
    | [] => false
    | _ :: bs => containsList bs needle

/-- Go's `strings.Contains`. -/
def strContains (hay needle : String) : Bool :=
  containsList hay.data needle.data

/-- `Client.SearchGameByName` (api/client.go lines 106-162) over oracle
outcomes: `direct` is the result of the direct id/abbreviation lookup
(`none` = request failed), `searchData` the data of the name-filtered
`max=1` search, `catalog` the full remote catalog enumerated by
`GetAllGames`.  `none` models the final "game not found" error. -/
def Client.SearchGameByName (direct : Option Game) (searchData : List Game)
    (catalog : List Game) (name : String) : Option Game :=
  match direct with
  | some g => some g
  | none =>
    match searchData with
    | g :: _ => some g
    | [] =>
      match (Client.GetAllGames catalog).find? (fun g => eqFold g.abbreviation name) with
      | some g => some g
      | none =>
        (Client.GetAllGames catalog).find?
          (fun g => strContains (strToLower g.names.international) (strToLower name))

/-! ## Leaderboard backfill fan-out (api/client.go lines 224-304) -/

/-- The distinct "user"-kind entrant ids referenced by the runs (the Go
`map[string]bool` collection). -/
def collectUserIDs (runs : List RunEntry) : List String :=
  ((runs.map (fun r => r.run.players)).flatten.filterMap
    (fun p => if p.rel == "user" then some p.id else none)).dedup

/-- One collected fan-out result: a successful fetch adds the player and
stores it in the cache; a failed fetch is skipped with no warning
emitted. -/
def fetchStep (fetch : String → Option PlayerData) (now : Int)
    (st : List (String × PlayerData) × PlayerCache × List String) (id : String) :
    List (String × PlayerData) × PlayerCache × List String :=
  match fetch id with
  | some d => ((id, d) :: st.1, st.2.1.Set id d now, st.2.2)
  | none => st

/-- Outcome of the backfill fan-out of `GetLeaderboard`. -/
structure BackfillOutcome where
  players : List (String × PlayerData)
  warnings : List String
  cache : PlayerCache
deriving Repr

/-- The backfill `GetLeaderboard` performs when the remote response
omits player data: consult the cache for every distinct user id, fetch
only the misses via the `fetch` oracle, and aggregate; failed fetches
are omitted from the players map. -/
def Client.GetLeaderboardBackfill (runs : List RunEntry) (c : PlayerCache) (now : Int)
    (fetch : String → Option PlayerData) : BackfillOutcome :=
  let ids := collectUserIDs runs
  let hits := ids.filterMap (fun id => ((c.Get id now).1).map (fun d => (id, d)))
  let toFetch := ids.filter (fun id => ((c.Get id now).1).isNone)
  let z := toFetch.foldl (fetchStep fetch now) (hits, c, [])
  { players := z.1, warnings := z.2.2, cache := z.2.1 }

/-! ## Merge/compose step of `run` (main.go lines 425-482) -/

/-- The country-code override of the merge step: if the leaderboard
(CSV) overlay record carries a country code, it replaces the country
code of the player-cache (JSON) record; name, name style and all other
fields stay with the player-cache record. -/
def applyCountryOverride (data : PlayerData) (base : PlayerData) : PlayerData :=
  match base.location with
  | some loc =>
    match loc.country with
    | some ctry => { data with location := some { country := some ctry } }
    | none => data
  | none => data

/-- Processing of one entrant id in the merge loop: prefer the player
cache (with CSV country override), then the CSV overlay as-is, then a
remote fetch stored back into the player cache; a failed fetch leaves
the entrant unresolved and surfaces a warning. -/
def mergeStep (overlay : List (String × PlayerData)) (now : Int)
    (fetch : String → Option PlayerData)
    (st : List (String × PlayerData) × PlayerCache × List String) (playerID : String) :
    List (String × PlayerData) × PlayerCache × List String :=
  match (st.2.1.Get playerID now).1 with
  | some d =>
    let merged :=
      match alLookup overlay playerID with
      | some bp => applyCountryOverride d bp
      | none => d
    ((playerID, merged) :: st.1, st.2.1, st.2.2)
  | none =>
    match alLookup overlay playerID with
    | some bp => ((playerID, bp) :: st.1, st.2.1, st.2.2)
    | none =>
      match fetch playerID with
      | some pd => ((playerID, pd) :: st.1, st.2.1.Set playerID pd now, st.2.2)
      | none => (st.1, st.2.1, st.2.2 ++ ["Warning: Failed to fetch player " ++ playerID])

/-- The merge/compose loop of the cache-load path of `run`: rebuild the
players map for every distinct user id of the loaded snapshot's runs. -/
def runMergePlayers (runs : List RunEntry) (overlay : List (String × PlayerData))
    (c : PlayerCache) (now : Int) (fetch : String → Option PlayerData) :
    List (String × PlayerData) × PlayerCache × List String :=
  (collectUserIDs runs).foldl (mergeStep overlay now fetch) ([], c, [])

/-! ## Concrete fixtures used by the closed statements -/

/-- A snapshot with a 1.05-second run: the input exhibiting the duration
re-derivation defect. -/
def roundtripSnapshot : CachedLeaderboard :=
  { key := ⟨"gm1", "Game One", "cat1", "Any%", [("9dq73k2q", "mln1yv32")]⟩,
    cachedAt := "2024-01-02T03:04:05Z",
    game := ⟨"gm1", ⟨"Game One"⟩, "go"⟩,
    category := ⟨"cat1", "Any%"⟩,
    runs := [ { place := 1,
                run := { id := "r1",
                         players := [⟨"user", "p1", ""⟩],
                         times := ⟨"PT1.05S", 105⟩,
                         videos := some ⟨[⟨"https://v/1"⟩, ⟨"https://v/2"⟩]⟩,
                         date := "2024-01-01",
                         submitURL := "https://s/r1" } } ],
    players := [("p1", { rel := "user", id := "p1", name := "", nameStyle := none,
                         names := ⟨"Alice"⟩, location := none })] }

/-- A minimal snapshot without filter variables (header at record
index 4). -/
def headerSnapshot : CachedLeaderboard :=
  { key := ⟨"gm1", "Game One", "cat1", "Any%", []⟩,
    cachedAt := "2024-01-02T03:04:05Z",
    game := ⟨"gm1", ⟨"Game One"⟩, "go"⟩,
    category := ⟨"cat1", "Any%"⟩,
    runs := [], players := [] }

/-- The ranking snapshot used to exhibit the leaderboard cache's direct,
unconditional write. -/
def atomicSnapshot : CachedLeaderboard :=
  { key := ⟨"gm2", "Game Two", "cat2", "100%", []⟩,
    cachedAt := "2024-02-02T00:00:00Z",
    game := ⟨"gm2", ⟨"Game Two"⟩, "gt"⟩,
    category := ⟨"cat2", "100%"⟩,
    runs := [], players := [] }

/-- Runs with one user entrant, used for the backfill fixtures. -/
def backfillRuns : List RunEntry :=
  [ { place := 1,
      run := { id := "r9", players := [⟨"user", "p1", ""⟩],
               times := ⟨"PT1M0S", 6000⟩, videos := none,
               date := "2024-01-01", submitURL := "" } } ]

/-- A fetch oracle on which every remote player fetch fails. -/
def fetchFailAll : String → Option PlayerData :=
  fun _ => none

/-- A rich player-cache record (gradient name style, country jp). -/
def pdJsonW : PlayerData :=
  { rel := "user", id := "pa", name := "", nameStyle := some ⟨"gradient",
      some ⟨"#fff", "#000"⟩, some ⟨"#aaa", "#bbb"⟩⟩,
    names := ⟨"Alpha"⟩, location := some ⟨some "jp"⟩ }

/-- The CSV overlay record for the same entrant (country us only). -/
def pdCsvW : PlayerData :=
  { rel := "user", id := "pa", name := "Alpha", nameStyle := none,
    names := ⟨""⟩, location := some ⟨some "us"⟩ }

/-- The remotely fetched record for the uncached entrant. -/
def pdFetchedW : PlayerData :=
  { rel := "user", id := "pb", name := "", nameStyle := none,
    names := ⟨"Beta"⟩, location := some ⟨some "de"⟩ }

/-- Runs referencing the two user entrants of the merge fixtures. -/
def mergeRunsW : List RunEntry :=
  [ { place := 1,
      run := { id := "ra", players := [⟨"user", "pa", ""⟩],
               times := ⟨"PT1M0S", 6000⟩, videos := none,
               date := "2024-01-01", submitURL := "" } },
    { place := 2,
      run := { id := "rb", players := [⟨"user", "pb", ""⟩],
               times := ⟨"PT2M0S", 12000⟩, videos := none,
               date := "2024-01-02", submitURL := "" } } ]

/-- The snapshot overlay of the merge fixtures: only `pa` present. -/
def mergeOverlayW : List (String × PlayerData) :=
  [("pa", pdCsvW)]

/-- The player cache of the merge fixtures: a fresh entry for `pa`. -/
def mergeCacheW : PlayerCache :=
  ⟨".cache", 720, [("pa", ⟨pdJsonW, 900⟩)], false⟩

/-- The fetch oracle of the merge fixtures: only `pb` resolves. -/
def mergeFetchW : String → Option PlayerData :=
  fun id => if id == "pb" then some pdFetchedW else none

/-! ## Properties of the string order used by the key sort -/

theorem charToNat_inj {a b : Char} (h : a.toNat = b.toNat) : a = b := by
  have h2 := congrArg Char.ofNat h
  rwa [Char.ofNat_toNat, Char.ofNat_toNat] at h2

theorem goCharListLe_total : ∀ as bs : List Char,
    goCharListLe as bs = true ∨ goCharListLe bs as = true := by
  intro as
  induction as with
  | nil => intro bs; left; rfl
  | cons a as ih =>
    intro bs
    cases bs with
    | nil => right; rfl
    | cons b bs =>
      by_cases h1 : a.toNat < b.toNat
      · left; simp [goCharListLe, h1]
      · by_cases h2 : b.toNat < a.toNat
        · right; simp [goCharListLe, h1, h2]
        · rcases ih bs with h | h
          · left; simp [goCharListLe, h1, h2, h]
          · right; simp [goCharListLe, h1, h2, h]

theorem goCharListLe_trans : ∀ as bs cs : List Char,
    goCharListLe as bs = true → goCharListLe bs cs = true →
    goCharListLe as cs = true := by
  intro as
  induction as with
  | nil => intro bs cs _ _; rfl
  | cons a as ih =>
    intro bs cs h1 h2
    cases bs with
    | nil => simp [goCharListLe] at h1
    | cons b bs =>
      cases cs with
      | nil => simp [goCharListLe] at h2
      | cons c cs =>
        rcases Nat.lt_trichotomy a.toNat b.toNat with hab | hab | hab
        · rcases Nat.lt_trichotomy b.toNat c.toNat with hbc | hbc | hbc
          · simp [goCharListLe, Nat.lt_trans hab hbc]
          · simp [goCharListLe, hbc ▸ hab]
          · exfalso
            simp [goCharListLe, Nat.lt_asymm hbc, hbc] at h2
        · rcases Nat.lt_trichotomy b.toNat c.toNat with hbc | hbc | hbc
          · simp [goCharListLe, hab ▸ hbc]
          · have hac : ¬ a.toNat < c.toNat := by omega
            have hca : ¬ c.toNat < a.toNat := by omega
            simp only [goCharListLe, if_neg hac, if_neg hca]
            have hnab : ¬ a.toNat < b.toNat := by omega
            have hnba : ¬ b.toNat < a.toNat := by omega
            have hnbc : ¬ b.toNat < c.toNat := by omega
            have hncb : ¬ c.toNat < b.toNat := by omega
            have h1' : goCharListLe as bs = true := by
              simpa only [goCharListLe, if_neg hnab, if_neg hnba] using h1
            have h2' : goCharListLe bs cs = true := by
              simpa only [goCharListLe, if_neg hnbc, if_neg hncb] using h2
            exact ih bs cs h1' h2'
          · exfalso
            simp [goCharListLe, Nat.lt_asymm hbc, hbc] at h2
        · exfalso
          simp [goCharListLe, Nat.lt_asymm hab, hab] at h1

theorem goCharListLe_antisymm : ∀ as bs : List Char,
    goCharListLe as bs = true → goCharListLe bs as = true → as = bs := by
  intro as
  induction as with
  | nil =>
    intro bs h1 h2
    cases bs with
    | nil => rfl
    | cons b bs => simp [goCharListLe] at h2
  | cons a as ih =>
    intro bs h1 h2
    cases bs with
    | nil => simp [goCharListLe] at h1
    | cons b bs =>
      rcases Nat.lt_trichotomy a.toNat b.toNat with h | h | h
      · exfalso; simp [goCharListLe, Nat.lt_asymm h, h] at h2
      · have hab : a = b := charToNat_inj h
        subst hab
        have hir : ¬ a.toNat < a.toNat := Nat.lt_irrefl a.toNat
        have h1' : goCharListLe as bs = true := by
          simpa only [goCharListLe, if_neg hir] using h1
        have h2' : goCharListLe bs as = true := by
          simpa only [goCharListLe, if_neg hir] using h2
        rw [ih bs h1' h2']
      · exfalso; simp [goCharListLe, Nat.lt_asymm h, h] at h1

instance : IsTotal String (fun a b => goStrLe a b = true) :=
  ⟨fun a b => goCharListLe_total a.data b.data⟩

instance : IsTrans String (fun a b => goStrLe a b = true) :=
  ⟨fun a b c => goCharListLe_trans a.data b.data c.data⟩

instance : IsAntisymm String (fun a b => goStrLe a b = true) :=
  ⟨fun a b h1 h2 => by
    cases a with
    | mk da =>
      cases b with
      | mk db => exact congrArg String.mk (goCharListLe_antisymm da db h1 h2)⟩

/-! ## Lookup lemmas for association lists -/

theorem find_key_perm {β : Type} {l1 l2 : List (String × β)} (h : l1.Perm l2) :
    (l1.map Prod.fst).Nodup → ∀ k,
    l1.find? (fun p => p.1 == k) = l2.find? (fun p => p.1 == k) := by
  induction h with
  | nil => intro _ _; rfl
  | cons x h ih =>
    intro hnd k
    rw [List.map_cons] at hnd
    have hnd' := hnd.of_cons
    cases hx : (x.1 == k) <;> simp [List.find?, hx]
    exact ih hnd' k
  | swap x y l =>
    intro hnd k
    rw [List.map_cons, List.map_cons] at hnd
    have hxy : y.1 ≠ x.1 := by
      have h1 := (List.nodup_cons.mp hnd).1
      intro hc
      exact h1 (hc ▸ List.mem_cons_self x.1 _)
    cases hx : (x.1 == k) <;> cases hy : (y.1 == k) <;>
      simp [List.find?, hx, hy]
    exact absurd ((eq_of_beq hy).trans (eq_of_beq hx).symm) hxy
  | trans h1 h2 ih1 ih2 =>
    intro hnd k
    have hnd2 : _ := ((h1.map Prod.fst).nodup_iff).mp hnd
    rw [ih1 hnd k, ih2 hnd2 k]

theorem find_key_of_mem_nodup {β : Type} {vars : List (String × β)} {k : String} {v : β}
    (hmem : (k, v) ∈ vars) (hnd : (vars.map Prod.fst).Nodup) :
    vars.find? (fun p => p.1 == k) = some (k, v) := by
  induction vars with
  | nil => cases hmem
  | cons x rest ih =>
    rcases List.mem_cons.mp hmem with rfl | hmem'
    · simp [List.find?]
    · rw [List.map_cons] at hnd
      have hk : k ∈ rest.map Prod.fst := by
        have h2 := List.mem_map_of_mem Prod.fst hmem'
        simpa using h2
      have hx1 : x.1 ∉ rest.map Prod.fst := (List.nodup_cons.mp hnd).1
      have hx : (x.1 == k) = false := by
        apply beq_eq_false_iff_ne.mpr
        intro h
        exact hx1 (h ▸ hk)
      simp only [List.find?, hx]
      exact ih hmem' (List.nodup_cons.mp hnd).2

/-! ## Claim C4: cache-key canonicalization -/

/-- Claim C4: for every pair of filter sets that contain identical
key/value pairs in any order, and fixed subject and grouping ids,
`CacheKey.String` produces the identical canonical string. -/
theorem cacheKey_string_canonical
    (g gn c cn : String) (v1 v2 : List (String × String))
    (hperm : v1.Perm v2) (hnd : (v1.map Prod.fst).Nodup) :
    CacheKey.string ⟨g, gn, c, cn, v1⟩ = CacheKey.string ⟨g, gn, c, cn, v2⟩ := by
  have hkeys : sortedKeys v1 = sortedKeys v2 := by
    unfold sortedKeys
    exact List.eq_of_perm_of_sorted
      ((List.perm_insertionSort _ _).trans
        ((hperm.map Prod.fst).trans (List.perm_insertionSort _ _).symm))
      (List.sorted_insertionSort _ _) (List.sorted_insertionSort _ _)
  have hlook : ∀ k, lookupVar v1 k = lookupVar v2 k := by
    intro k
    unfold lookupVar alLookup
    rw [find_key_perm hperm hnd k]
  simp only [CacheKey.string, CacheKey.parts, hkeys, hlook]

/-- Witness for C4 at a concrete pair of permuted filter sets. -/
theorem cacheKey_string_canonical_witness :
    CacheKey.string ⟨"sms", "SMS", "anyp", "Any%", [("b", "2"), ("a", "1")]⟩ =
      CacheKey.string ⟨"sms", "SMS", "anyp", "Any%", [("a", "1"), ("b", "2")]⟩ :=
  cacheKey_string_canonical "sms" "SMS" "anyp" "Any%" _ _ (by decide) (by decide)

/-! ## Claim C5: the concrete filter-set scenario -/

/-- Claim C5, counterexample: with a second filter pair present, the
serialized key is not `<subjectId>_<groupingId>_9dq73k2q=mln1yv32`, so
the claimed string is not produced "regardless of how many other filter
pairs are supplied". -/
theorem cacheKey_concrete_scenario_cx :
    CacheKey.string ⟨"sms", "Super Mario Sunshine", "n2y3y8d0", "Any%",
        [("9dq73k2q", "mln1yv32"), ("zzzz", "extra")]⟩ ≠
      "sms" ++ "_" ++ "n2y3y8d0" ++ "_" ++ "9dq73k2q=mln1yv32" := by
  decide

/-- Claim C5 (amended): a cache key whose filter set is exactly the pair
`9dq73k2q=mln1yv32` (in any order) serializes to
`<subjectId>_<groupingId>_9dq73k2q=mln1yv32`; when other pairs are
present, `9dq73k2q=mln1yv32` still appears among the underscore-joined
parts regardless of insertion order, but the full string also contains
the other pairs. -/
theorem cacheKey_concrete_scenario :
    (∀ g gn c cn (vars : List (String × String)),
        vars.Perm [("9dq73k2q", "mln1yv32")] →
        CacheKey.string ⟨g, gn, c, cn, vars⟩ =
          g ++ "_" ++ c ++ "_" ++ "9dq73k2q=mln1yv32")
    ∧ (∀ g gn c cn (vars : List (String × String)),
        (vars.map Prod.fst).Nodup → ("9dq73k2q", "mln1yv32") ∈ vars →
        "9dq73k2q=mln1yv32" ∈ CacheKey.parts ⟨g, gn, c, cn, vars⟩) := by
  constructor
  · intro g gn c cn vars hperm
    have hv : vars = [("9dq73k2q", "mln1yv32")] := List.perm_singleton.mp hperm
    subst hv
    show joinSep "_" [g, c, "9dq73k2q" ++ "=" ++ "mln1yv32"] =
      g ++ "_" ++ c ++ "_" ++ "9dq73k2q=mln1yv32"
    simp [joinSep, String.append_assoc]
  · intro g gn c cn vars hnd hmem
    have hk : "9dq73k2q" ∈ sortedKeys vars := by
      have h1 : "9dq73k2q" ∈ vars.map Prod.fst := by
        have := List.mem_map_of_mem Prod.fst hmem
        simpa using this
      exact ((List.perm_insertionSort _ _).mem_iff).mpr h1
    have hv : lookupVar vars "9dq73k2q" = "mln1yv32" := by
      unfold lookupVar alLookup
      rw [find_key_of_mem_nodup hmem hnd]
      rfl
    refine List.mem_cons_of_mem _ (List.mem_cons_of_mem _ ?_)
    refine List.mem_map.mpr ⟨"9dq73k2q", hk, ?_⟩
    rw [hv]
    decide

/-- Witness for C5 (amended) at concrete inputs: the singleton filter
set yields exactly the claimed string, and with an extra pair the
component is still among the parts. -/
theorem cacheKey_concrete_scenario_witness :
    CacheKey.string ⟨"sms", "SMS", "n2y3y8d0", "Any%", [("9dq73k2q", "mln1yv32")]⟩ =
      "sms" ++ "_" ++ "n2y3y8d0" ++ "_" ++ "9dq73k2q=mln1yv32"
    ∧ "9dq73k2q=mln1yv32" ∈ CacheKey.parts ⟨"sms", "SMS", "n2y3y8d0", "Any%",
        [("zz", "v"), ("9dq73k2q", "mln1yv32")]⟩ :=
  ⟨cacheKey_concrete_scenario.1 "sms" "SMS" "n2y3y8d0" "Any%" _ (by decide),
   cacheKey_concrete_scenario.2 "sms" "SMS" "n2y3y8d0" "Any%" _ (by decide) (by decide)⟩

/-! ## Claim C10: the canonical string is not injective -/

/-- Claim C10: `CacheKey.String` is not injective — a grouping id that
itself contains `_` and `=` collides with a distinct key carrying an
extra filter pair, and via `FileName` the two share one on-disk cache
file name. -/
theorem cacheKey_string_not_injective :
    (⟨"g", "G", "c_x=y", "C", []⟩ : CacheKey) ≠ ⟨"g", "G", "c", "C", [("x", "y")]⟩
    ∧ CacheKey.string ⟨"g", "G", "c_x=y", "C", []⟩ =
        CacheKey.string ⟨"g", "G", "c", "C", [("x", "y")]⟩
    ∧ CacheKey.fileName ⟨"g", "G", "c_x=y", "C", []⟩ =
        CacheKey.fileName ⟨"g", "G", "c", "C", [("x", "y")]⟩ := by
  exact ⟨by decide, by decide, by decide⟩

/-! ## Claim C6: player-cache TTL semantics of Get -/

/-- Claim C6: `Get(id)` returns not-found exactly when the id is absent
or `now - cachedAt > ttl`; an item cached at `now - ttl - 1` is not
found while one cached at `now - ttl + 1` is; and `Get` never removes or
modifies any stored entry. -/
theorem playerCache_get_ttl :
    (∀ (c : PlayerCache) (id : String) (now : Int),
       ((c.Get id now).1 = none ↔
         alLookup c.players id = none ∨
         ∃ item, alLookup c.players id = some item ∧ now - item.cachedAt > c.ttl)
       ∧ (c.Get id now).2 = c)
    ∧ (∀ (dir : String) (ttl now : Int) (pd : PlayerData) (id : String) (dirty : Bool),
        (PlayerCache.Get ⟨dir, ttl, [(id, ⟨pd, now - ttl - 1⟩)], dirty⟩ id now).1 = none
        ∧ (PlayerCache.Get ⟨dir, ttl, [(id, ⟨pd, now - ttl + 1⟩)], dirty⟩ id now).1 = some pd) := by
  constructor
  · intro c id now
    refine ⟨?_, rfl⟩
    unfold PlayerCache.Get
    cases h : alLookup c.players id with
    | none => simp [h]
    | some item =>
      by_cases httl : now - item.cachedAt > c.ttl
      · simp [h, httl]
      · simp [h, httl]
  · intro dir ttl now pd id dirty
    have h1 : now - (now - ttl - 1) > ttl := by omega
    have h2 : ¬ now - (now - ttl + 1) > ttl := by omega
    constructor
    · unfold PlayerCache.Get
      simp [alLookup, List.find?, h1]
    · unfold PlayerCache.Get
      simp [alLookup, List.find?, h2]

/-! ## Claim C7: write discipline of the two save paths -/

/-- Claim C7, counterexample: `LeaderboardCache.Save` keeps no dirty
state and writes the target file directly — its operation trace is a
`mkdirAll` followed by a direct create/write of the final path and
contains no rename, contradicting the claimed temp-then-rename for both
caches. -/
theorem lb_save_not_atomic_cx :
    (LeaderboardCache.SaveOps ".cache" atomicSnapshot).filter FsOp.isRename = []
    ∧ LeaderboardCache.SaveOps ".cache" atomicSnapshot =
        [FsOp.mkdirAll ".cache",
         FsOp.createWrite (".cache/" ++ atomicSnapshot.key.fileName)
           (renderCsvRecords (LeaderboardCache.saveRecords atomicSnapshot))]
    ∧ applyOps (fun _ => none) (LeaderboardCache.SaveOps ".cache" atomicSnapshot)
        (".cache/" ++ atomicSnapshot.key.fileName) =
        some (renderCsvRecords (LeaderboardCache.saveRecords atomicSnapshot)) := by
  refine ⟨by decide, by decide, by decide⟩

/-- Claim C7 (amended): the player cache save is a no-op unless dirty
and otherwise writes a temp file, renames it over the target and clears
the dirty flag; the leaderboard cache save has no dirty gate and no
rename — it creates and writes the target path directly. -/
theorem save_discipline :
    (∀ (c : PlayerCache) (s : String), c.dirty = false →
       (c.Save s).1 = [] ∧ (c.Save s).2 = c)
    ∧ (∀ (c : PlayerCache) (s : String), c.dirty = true →
       (c.Save s).1 = [FsOp.writeFile (c.filePath ++ ".tmp") s,
                       FsOp.rename (c.filePath ++ ".tmp") c.filePath]
       ∧ (c.Save s).2.dirty = false
       ∧ ∀ fs, applyOps fs (c.Save s).1 c.filePath = some s)
    ∧ (∀ (dir : String) (d : CachedLeaderboard),
       (LeaderboardCache.SaveOps dir d).filter FsOp.isRename = []
       ∧ ∀ fs, applyOps fs (LeaderboardCache.SaveOps dir d)
           (dir ++ "/" ++ d.key.fileName) =
           some (renderCsvRecords (LeaderboardCache.saveRecords d))) := by
  refine ⟨?_, ?_, ?_⟩
  · intro c s h
    simp [PlayerCache.Save, h]
  · intro c s h
    refine ⟨by simp [PlayerCache.Save, h], by simp [PlayerCache.Save, h], ?_⟩
    intro fs
    simp [PlayerCache.Save, h, applyOps, applyOp]
  · intro dir d
    refine ⟨by simp [LeaderboardCache.SaveOps, FsOp.isRename], ?_⟩
    intro fs
    simp [LeaderboardCache.SaveOps, applyOps, applyOp]

/-- Witness for C7 (amended) at a concrete dirty cache, a concrete
clean cache and a concrete snapshot. -/
theorem save_discipline_witness :
    (PlayerCache.Save ⟨".cache", 720, [], true⟩ "DATA").1 =
      [FsOp.writeFile ((PlayerCache.filePath ⟨".cache", 720, [], true⟩) ++ ".tmp") "DATA",
       FsOp.rename ((PlayerCache.filePath ⟨".cache", 720, [], true⟩) ++ ".tmp")
         (PlayerCache.filePath ⟨".cache", 720, [], true⟩)]
    ∧ applyOps (fun _ => none) (PlayerCache.Save ⟨".cache", 720, [], true⟩ "DATA").1
        (PlayerCache.filePath ⟨".cache", 720, [], true⟩) = some "DATA"
    ∧ (PlayerCache.Save ⟨".cache", 720, [], false⟩ "DATA").1 = []
    ∧ applyOps (fun _ => none) (LeaderboardCache.SaveOps ".cache" atomicSnapshot)
        (".cache" ++ "/" ++ atomicSnapshot.key.fileName) =
        some (renderCsvRecords (LeaderboardCache.saveRecords atomicSnapshot)) :=
  ⟨(save_discipline.2.1 ⟨".cache", 720, [], true⟩ "DATA" rfl).1,
   (save_discipline.2.1 ⟨".cache", 720, [], true⟩ "DATA" rfl).2.2 (fun _ => none),
   (save_discipline.1 ⟨".cache", 720, [], false⟩ "DATA" rfl).1,
   (save_discipline.2.2 ".cache" atomicSnapshot).2 (fun _ => none)⟩

/-! ## Claim C3: the persisted CSV format -/

theorem get?_append_len {α : Type} : ∀ (l rest : List α) (n : Nat),
    (l ++ rest).get? (l.length + n) = rest.get? n := by
  intro l
  induction l with
  | nil => intro rest n; simp
  | cons x xs ih =>
    intro rest n
    have h : (x :: xs).length + n = (xs.length + n) + 1 := by
      simp [Nat.succ_add]
    rw [List.cons_append, h, List.get?_cons_succ, ih]

theorem loadStep_players : ∀ (st : CachedLeaderboard) (record : List String),
    (LeaderboardCache.loadStep st record).players = st.players := by
  intro st record
  unfold LeaderboardCache.loadStep
  cases record with
  | nil => rfl
  | cons first rest =>
    repeat' split
    all_goals rfl

theorem loadFold_players : ∀ (records : List (List String)) (st : CachedLeaderboard),
    (records.foldl LeaderboardCache.loadStep st).players = st.players := by
  intro records
  induction records with
  | nil => intro st; rfl
  | cons r rs ih =>
    intro st
    rw [List.foldl_cons, ih, loadStep_players]

/-- Claim C3, counterexample: at a concrete snapshot the header row
written by `Save` is the 8-column row — it does not contain
`country_code`, and `Load` reconstructs an empty players overlay, so the
overlay carries no country code for any entrant. -/
theorem lb_cache_format_cx :
    (LeaderboardCache.saveRecords headerSnapshot).get? 4 = some csvHeaderRow
    ∧ csvHeaderRow ≠ ["rank", "player_id", "player_name", "country_code",
        "time_seconds", "date", "submit_url", "run_id", "video_links"]
    ∧ "country_code" ∉ csvHeaderRow
    ∧ (LeaderboardCache.loadRecords headerSnapshot.key
        (LeaderboardCache.saveRecords headerSnapshot)).players = [] := by
  refine ⟨by decide, by decide, by decide, by decide⟩

/-- Claim C3 (amended): every cache file written by `Save` contains,
after the prologue lines, the header row
`rank,player_id,player_name,time_seconds,date,submit_url,run_id,video_links`
(no `country_code` column), and the players overlay reconstructed by
`Load` is always empty — the ranking cache persists no country codes. -/
theorem lb_cache_format :
    (∀ d : CachedLeaderboard,
       (LeaderboardCache.saveRecords d).get? (4 + d.key.vars.length) = some csvHeaderRow)
    ∧ "country_code" ∉ csvHeaderRow
    ∧ (∀ (key : CacheKey) (records : List (List String)),
       (LeaderboardCache.loadRecords key records).players = []) := by
  refine ⟨?_, by decide, ?_⟩
  · intro d
    show ([["#META", "VERSION", "1"],
      ["#GAME", d.key.gameID, d.key.gameName],
      ["#CATEGORY", d.key.categoryID, d.key.categoryName],
      ["#CACHED_AT", d.cachedAt]]
      ++ d.key.vars.map (fun kv => ["#VARIABLE", kv.1, kv.2])
      ++ [csvHeaderRow]
      ++ d.runs.filterMap (runDataRow d.players)).get? (4 + d.key.vars.length) =
      some csvHeaderRow
    rw [List.append_assoc, List.append_assoc]
    have h4 : (4 + d.key.vars.length) =
        ([["#META", "VERSION", "1"],
          ["#GAME", d.key.gameID, d.key.gameName],
          ["#CATEGORY", d.key.categoryID, d.key.categoryName],
          ["#CACHED_AT", d.cachedAt]] : List (List String)).length + d.key.vars.length := by
      rfl
    rw [h4, get?_append_len]
    have hm : d.key.vars.length =
        (d.key.vars.map (fun kv => ["#VARIABLE", kv.1, kv.2])).length + 0 := by
      simp
    rw [hm, get?_append_len]
    rfl
  · intro key records
    unfold LeaderboardCache.loadRecords
    rw [loadFold_players]
    rfl

/-! ## Claim C2: the Save/Load round trip and the duration string -/

/-- Claim C2, evaluated at the failing input: a run of 1.05 seconds
round-trips its place, run id, entrant, video URLs and stored
centisecond value exactly, but the duration string `Load` re-derives is
`PT0M1.5S` — the centisecond remainder 5 is printed unpadded — which
decodes to 1.5 s, 0.45 s away from the stored 1.05 s and far outside
the claimed 0.01 s bound. -/
theorem lb_roundtrip_duration_bug :
    (LeaderboardCache.loadRecords roundtripSnapshot.key
        (LeaderboardCache.saveRecords roundtripSnapshot)).runs.map RunEntry.place = [1]
    ∧ (LeaderboardCache.loadRecords roundtripSnapshot.key
        (LeaderboardCache.saveRecords roundtripSnapshot)).runs.map
        (fun r => r.run.id) = ["r1"]
    ∧ (LeaderboardCache.loadRecords roundtripSnapshot.key
        (LeaderboardCache.saveRecords roundtripSnapshot)).runs.map
        (fun r => r.run.players) = [[⟨"user", "p1", ""⟩]]
    ∧ (LeaderboardCache.loadRecords roundtripSnapshot.key
        (LeaderboardCache.saveRecords roundtripSnapshot)).runs.map
        (fun r => r.run.videos) = [some ⟨[⟨"https://v/1"⟩, ⟨"https://v/2"⟩]⟩]
    ∧ (LeaderboardCache.loadRecords roundtripSnapshot.key
        (LeaderboardCache.saveRecords roundtripSnapshot)).runs.map
        (fun r => r.run.times.primaryT) = [105]
    ∧ (LeaderboardCache.loadRecords roundtripSnapshot.key
        (LeaderboardCache.saveRecords roundtripSnapshot)).runs.map
        (fun r => r.run.times.primary) = ["PT0M1.5S"]
    ∧ decodeDurationParts "PT0M1.5S" = some ((1, 5, 1))
    ∧ durationSeconds ((1, 5, 1)) - 105 / 100 > 1 / 100 := by
  refine ⟨by decide, by decide, by decide, by decide, by decide, by decide, by decide,
    ?_⟩
  unfold durationSeconds
  norm_num

/-! ## Claim C8: three-tier subject resolution -/

theorem getAllGamesFrom_eq_drop (catalog : List Game) :
    ∀ (fuel offset : Nat), catalog.length - offset ≤ fuel →
    getAllGamesFrom catalog offset = catalog.drop offset := by
  intro fuel
  induction fuel with
  | zero =>
    intro offset h
    have hd : catalog.drop offset = [] := List.drop_eq_nil_of_le (by omega)
    rw [getAllGamesFrom]
    simp [Client.GetGames, hd]
  | succ fuel ih =>
    intro offset h
    rw [getAllGamesFrom]
    by_cases hlt : (Client.GetGames catalog offset).length < 200
    · rw [dif_pos hlt]
      unfold Client.GetGames at hlt ⊢
      have hle : (catalog.drop offset).length ≤ 200 := by
        simp only [List.length_take, List.length_drop] at hlt ⊢
        omega
      exact List.take_of_length_le hle
    · rw [dif_neg hlt]
      have hlen : (Client.GetGames catalog offset).length = 200 := by
        unfold Client.GetGames
        unfold Client.GetGames at hlt
        simp only [List.length_take, List.length_drop] at hlt ⊢
        omega
      have hrec : getAllGamesFrom catalog (offset + (Client.GetGames catalog offset).length) =
          catalog.drop (offset + 200) := by
        rw [hlen]
        apply ih
        unfold Client.GetGames at hlt
        simp only [List.length_take, List.length_drop] at hlt
        omega
      rw [hrec]
      unfold Client.GetGames
      have hdd : catalog.drop (offset + 200) = (catalog.drop offset).drop 200 := by
        rw [List.drop_drop, Nat.add_comm]
      rw [hdd]
      exact List.take_append_drop 200 (catalog.drop offset)

theorem getAllGames_eq (catalog : List Game) :
    Client.GetAllGames catalog = catalog := by
  unfold Client.GetAllGames
  rw [getAllGamesFrom_eq_drop catalog catalog.length 0 (by omega)]
  exact List.drop_zero catalog

/-- Claim C8: `SearchGameByName` resolves a name in three tiers in
priority order — direct lookup, then a name-filtered search taking at
most one match, then enumeration of the full paginated catalog (pages
of 200) with case-insensitive exact abbreviation match before
case-insensitive substring match on the international display name —
returning the first match and failing with not-found only when every
tier misses; in particular, a name with only a substring match against
a display name resolves to that game. -/
theorem searchGameByName_tiers :
    (∀ catalog : List Game, Client.GetAllGames catalog = catalog)
    ∧ (∀ (searchData catalog : List Game) (name : String) (g : Game),
        Client.SearchGameByName (some g) searchData catalog name = some g)
    ∧ (∀ (catalog rest : List Game) (name : String) (g : Game),
        Client.SearchGameByName none (g :: rest) catalog name = some g)
    ∧ (∀ (catalog : List Game) (name : String) (g : Game),
        catalog.find? (fun x => eqFold x.abbreviation name) = some g →
        Client.SearchGameByName none [] catalog name = some g)
    ∧ (∀ (catalog : List Game) (name : String),
        catalog.find? (fun x => eqFold x.abbreviation name) = none →
        Client.SearchGameByName none [] catalog name =
          catalog.find?
            (fun x => strContains (strToLower x.names.international) (strToLower name)))
    ∧ (∀ (direct : Option Game) (searchData catalog : List Game) (name : String),
        Client.SearchGameByName direct searchData catalog name = none ↔
          direct = none ∧ searchData = []
          ∧ catalog.find? (fun x => eqFold x.abbreviation name) = none
          ∧ catalog.find?
              (fun x => strContains (strToLower x.names.international) (strToLower name)) =
              none) := by
  refine ⟨getAllGames_eq, ?_, ?_, ?_, ?_, ?_⟩
  · intro searchData catalog name g
    rfl
  · intro catalog rest name g
    rfl
  · intro catalog name g h
    unfold Client.SearchGameByName
    rw [getAllGames_eq, h]
  · intro catalog name h
    unfold Client.SearchGameByName
    rw [getAllGames_eq, h]
  · intro direct searchData catalog name
    cases direct with
    | some g => simp [Client.SearchGameByName]
    | none =>
      cases searchData with
      | cons g rest => simp [Client.SearchGameByName]
      | nil =>
        unfold Client.SearchGameByName
        rw [getAllGames_eq]
        cases h : catalog.find? (fun x => eqFold x.abbreviation name) with
        | some g => simp [h]
        | none => simp [h]

/-- Witness for C8: a name with no direct hit, no search hit and no
abbreviation match, but a substring match against the display name,
resolves to that game. -/
theorem searchGameByName_tiers_witness :
    Client.SearchGameByName none []
        [⟨"sms", ⟨"Super Mario Sunshine"⟩, "sms64"⟩] "Mario Sun" =
      some ⟨"sms", ⟨"Super Mario Sunshine"⟩, "sms64"⟩ :=
  (searchGameByName_tiers.2.2.2.2.1
      [⟨"sms", ⟨"Super Mario Sunshine"⟩, "sms64"⟩] "Mario Sun" (by decide)).trans
    (by decide)

/-! ## Claim C9: backfill fan-out resilience -/

theorem alLookup_cons {α : Type} (k k' : String) (v : α) (l : List (String × α)) :
    alLookup ((k, v) :: l) k' = if k == k' then some v else alLookup l k' := by
  cases h : (k == k') <;> simp [alLookup, List.find?, h]

theorem alLookup_filterMap_notmem {β : Type} (g : String → Option β) :
    ∀ (ids : List String) (id : String), id ∉ ids →
    alLookup (ids.filterMap (fun i => (g i).map (fun d => (i, d)))) id = none := by
  intro ids
  induction ids with
  | nil => intro id _; rfl
  | cons x xs ih =>
    intro id h
    have hx : id ≠ x := fun hc => h (hc ▸ List.mem_cons_self x xs)
    have h' : id ∉ xs := fun hc => h (List.mem_cons_of_mem x hc)
    cases hg : g x with
    | none =>
      simp only [List.filterMap_cons, hg, Option.map_none']
      exact ih id h'
    | some d =>
      simp only [List.filterMap_cons, hg, Option.map_some']
      rw [alLookup_cons]
      have hb : (x == id) = false := beq_eq_false_iff_ne.mpr (fun hc => hx hc.symm)
      rw [hb]
      simpa using ih id h'

theorem alLookup_filterMap_mem {β : Type} (g : String → Option β) :
    ∀ (ids : List String), ids.Nodup → ∀ id ∈ ids,
    alLookup (ids.filterMap (fun i => (g i).map (fun d => (i, d)))) id = g id := by
  intro ids
  induction ids with
  | nil => intro _ id h; cases h
  | cons x xs ih =>
    intro hnd id hmem
    have hnd' := hnd.of_cons
    have hxnot := (List.nodup_cons.mp hnd).1
    rcases List.mem_cons.mp hmem with rfl | hmem'
    · cases hg : g id with
      | none =>
        simp only [List.filterMap_cons, hg, Option.map_none']
        exact alLookup_filterMap_notmem g xs id hxnot
      | some d =>
        simp only [List.filterMap_cons, hg, Option.map_some']
        rw [alLookup_cons]
        simp
    · have hx : x ≠ id := fun hc => hxnot (hc ▸ hmem')
      cases hg : g x with
      | none =>
        simp only [List.filterMap_cons, hg, Option.map_none']
        exact ih hnd' id hmem'
      | some d =>
        simp only [List.filterMap_cons, hg, Option.map_some']
        rw [alLookup_cons]
        have hb : (x == id) = false := beq_eq_false_iff_ne.mpr hx
        rw [hb]
        simpa using ih hnd' id hmem'

theorem fetchFold_warnings (fetch : String → Option PlayerData) (now : Int) :
    ∀ (ids : List String) (ps : List (String × PlayerData)) (c : PlayerCache)
      (ws : List String),
    (ids.foldl (fetchStep fetch now) (ps, c, ws)).2.2 = ws := by
  intro ids
  induction ids with
  | nil => intro ps c ws; rfl
  | cons x xs ih =>
    intro ps c ws
    rw [List.foldl_cons]
    cases hf : fetch x with
    | none =>
      have hs : fetchStep fetch now (ps, c, ws) x = (ps, c, ws) := by
        simp [fetchStep, hf]
      rw [hs]
      exact ih ps c ws
    | some d =>
      have hs : fetchStep fetch now (ps, c, ws) x = ((x, d) :: ps, c.Set x d now, ws) := by
        simp [fetchStep, hf]
      rw [hs]
      exact ih _ _ ws

theorem fetchFold_players_notmem (fetch : String → Option PlayerData) (now : Int) :
    ∀ (ids : List String) (id : String), id ∉ ids →
    ∀ (ps : List (String × PlayerData)) (c : PlayerCache) (ws : List String),
    alLookup (ids.foldl (fetchStep fetch now) (ps, c, ws)).1 id = alLookup ps id := by
  intro ids
  induction ids with
  | nil => intro id _ ps c ws; rfl
  | cons x xs ih =>
    intro id h ps c ws
    have hx : id ≠ x := fun hc => h (hc ▸ List.mem_cons_self x xs)
    have h' : id ∉ xs := fun hc => h (List.mem_cons_of_mem x hc)
    rw [List.foldl_cons]
    cases hf : fetch x with
    | none =>
      have hs : fetchStep fetch now (ps, c, ws) x = (ps, c, ws) := by
        simp [fetchStep, hf]
      rw [hs]
      exact ih id h' ps c ws
    | some d =>
      have hs : fetchStep fetch now (ps, c, ws) x = ((x, d) :: ps, c.Set x d now, ws) := by
        simp [fetchStep, hf]
      rw [hs, ih id h' _ _ ws, alLookup_cons]
      have hb : (x == id) = false := beq_eq_false_iff_ne.mpr (fun hc => hx hc.symm)
      rw [hb]
      simp

theorem fetchFold_players_mem (fetch : String → Option PlayerData) (now : Int) :
    ∀ (ids : List String), ids.Nodup → ∀ id ∈ ids,
    ∀ (ps : List (String × PlayerData)) (c : PlayerCache) (ws : List String),
    alLookup (ids.foldl (fetchStep fetch now) (ps, c, ws)).1 id =
      (match fetch id with
       | some d => some d
       | none => alLookup ps id) := by
  intro ids
  induction ids with
  | nil => intro _ id h; cases h
  | cons x xs ih =>
    intro hnd id hmem ps c ws
    have hnd' := hnd.of_cons
    have hxnot := (List.nodup_cons.mp hnd).1
    rw [List.foldl_cons]
    rcases List.mem_cons.mp hmem with rfl | hmem'
    · cases hf : fetch id with
      | none =>
        have hs : fetchStep fetch now (ps, c, ws) id = (ps, c, ws) := by
          simp [fetchStep, hf]
        rw [hs, fetchFold_players_notmem fetch now xs id hxnot]
      | some d =>
        have hs : fetchStep fetch now (ps, c, ws) id =
            ((id, d) :: ps, c.Set id d now, ws) := by
          simp [fetchStep, hf]
        rw [hs, fetchFold_players_notmem fetch now xs id hxnot, alLookup_cons]
        simp
    · have hx : id ≠ x := fun hc => hxnot (hc ▸ hmem')
      cases hf : fetch x with
      | none =>
        have hs : fetchStep fetch now (ps, c, ws) x = (ps, c, ws) := by
          simp [fetchStep, hf]
        rw [hs]
        exact ih hnd' id hmem' ps c ws
      | some d =>
        have hs : fetchStep fetch now (ps, c, ws) x =
            ((x, d) :: ps, c.Set x d now, ws) := by
          simp [fetchStep, hf]
        rw [hs, ih hnd' id hmem' _ _ ws, alLookup_cons]
        have hb : (x == id) = false := beq_eq_false_iff_ne.mpr (fun hc => hx hc.symm)
        rw [hb]
        simp

/-- Claim C9, counterexample: a backfill in which the single user
entrant's fetch fails returns with the entrant absent from the players
map but surfaces no warning (the code sends a nil result and the
collector silently skips it), so no warning per failed entrant is
surfaced to the caller. -/
theorem backfill_no_warning_cx :
    collectUserIDs backfillRuns = ["p1"]
    ∧ fetchFailAll "p1" = none
    ∧ (Client.GetLeaderboardBackfill backfillRuns
        ⟨".cache", 720, [], false⟩ 0 fetchFailAll).players = []
    ∧ (Client.GetLeaderboardBackfill backfillRuns
        ⟨".cache", 720, [], false⟩ 0 fetchFailAll).warnings = [] := by
  refine ⟨by decide, rfl, by decide, by decide⟩

/-- Claim C9 (amended): when the remote response omits per-entrant
detail, the backfill consults the Entity Cache first and fetches only
cache misses; for every subset of failing fetches the leaderboard fetch
still returns, the failed entrants are simply absent from the players
map — and no warning is emitted per failed entrant (the code warns only
if the subsequent cache save fails). -/
theorem backfill_resilience (runs : List RunEntry) (c : PlayerCache) (now : Int)
    (fetch : String → Option PlayerData) (id : String)
    (hid : id ∈ collectUserIDs runs) :
    (Client.GetLeaderboardBackfill runs c now fetch).warnings = []
    ∧ alLookup (Client.GetLeaderboardBackfill runs c now fetch).players id =
        (match (c.Get id now).1 with
         | some d => some d
         | none => fetch id) := by
  have hnd : (collectUserIDs runs).Nodup := by
    unfold collectUserIDs
    exact List.nodup_dedup _
  constructor
  · show ((((collectUserIDs runs).filter
        (fun i => ((c.Get i now).1).isNone)).foldl (fetchStep fetch now)
        ((collectUserIDs runs).filterMap
          (fun i => ((c.Get i now).1).map (fun d => (i, d))), c, [])).2.2 :
        List String) = []
    rw [fetchFold_warnings]
  · show alLookup (((collectUserIDs runs).filter
        (fun i => ((c.Get i now).1).isNone)).foldl (fetchStep fetch now)
        ((collectUserIDs runs).filterMap
          (fun i => ((c.Get i now).1).map (fun d => (i, d))), c, [])).1 id = _
    cases hg : (c.Get id now).1 with
    | some d =>
      have hidnot : id ∉ (collectUserIDs runs).filter
          (fun i => ((c.Get i now).1).isNone) := by
        intro hc
        have h2 := (List.mem_filter.mp hc).2
        rw [hg] at h2
        simp at h2
      rw [fetchFold_players_notmem fetch now _ id hidnot]
      have h3 := alLookup_filterMap_mem (fun i => (c.Get i now).1)
        (collectUserIDs runs) hnd id hid
      rw [h3]
      simp [hg]
    | none =>
      have hmemf : id ∈ (collectUserIDs runs).filter
          (fun i => ((c.Get i now).1).isNone) :=
        List.mem_filter.mpr ⟨hid, by rw [hg]; rfl⟩
      have hndf : ((collectUserIDs runs).filter
          (fun i => ((c.Get i now).1).isNone)).Nodup := hnd.filter _
      rw [fetchFold_players_mem fetch now _ hndf id hmemf]
      cases hf : fetch id with
      | some d => rfl
      | none =>
        have h3 := alLookup_filterMap_mem (fun i => (c.Get i now).1)
          (collectUserIDs runs) hnd id hid
        rw [h3]
        simp [hg]

/-- Witness for C9 (amended): at a concrete snapshot with one user
entrant resolved from the cache and an all-failing fetch oracle. -/
theorem backfill_resilience_witness :
    (Client.GetLeaderboardBackfill backfillRuns
        ⟨".cache", 720, [("p1", ⟨pdJsonW, 0⟩)], false⟩ 100 fetchFailAll).warnings = []
    ∧ alLookup (Client.GetLeaderboardBackfill backfillRuns
        ⟨".cache", 720, [("p1", ⟨pdJsonW, 0⟩)], false⟩ 100 fetchFailAll).players "p1" =
        (match (PlayerCache.Get ⟨".cache", 720, [("p1", ⟨pdJsonW, 0⟩)], false⟩ "p1" 100).1 with
         | some d => some d
         | none => fetchFailAll "p1") :=
  backfill_resilience backfillRuns
    ⟨".cache", 720, [("p1", ⟨pdJsonW, 0⟩)], false⟩ 100 fetchFailAll "p1" (by decide)

/-! ## Claim C1: merge precedence of the cache-load path -/

theorem get_set_ne (c : PlayerCache) (i j : String) (d : PlayerData) (now now' : Int)
    (h : i ≠ j) : ((c.Set j d now').Get i now).1 = (c.Get i now).1 := by
  have hb : (j == i) = false := beq_eq_false_iff_ne.mpr (fun hc => h hc.symm)
  simp [PlayerCache.Set, PlayerCache.Get, alLookup, List.find?, hb]

theorem players_set_ne (c : PlayerCache) (i j : String) (d : PlayerData) (now' : Int)
    (h : i ≠ j) : alLookup (c.Set j d now').players i = alLookup c.players i := by
  have hb : (j == i) = false := beq_eq_false_iff_ne.mpr (fun hc => h hc.symm)
  simp [PlayerCache.Set, alLookup, List.find?, hb]

theorem mergeStep_fst (overlay : List (String × PlayerData)) (now : Int)
    (fetch : String → Option PlayerData)
    (st : List (String × PlayerData) × PlayerCache × List String) (x : String) :
    (∃ v, (mergeStep overlay now fetch st x).1 = (x, v) :: st.1)
    ∨ (mergeStep overlay now fetch st x).1 = st.1 := by
  rcases hg : ((st.2.1).Get x now).1 with _ | d
  · rcases ho : alLookup overlay x with _ | bp
    · rcases hf : fetch x with _ | pd
      · right; simp [mergeStep, hg, ho, hf]
      · left; exact ⟨pd, by simp [mergeStep, hg, ho, hf]⟩
    · left; exact ⟨bp, by simp [mergeStep, hg, ho]⟩
  · rcases ho : alLookup overlay x with _ | bp
    · left; exact ⟨d, by simp [mergeStep, hg, ho]⟩
    · left; exact ⟨applyCountryOverride d bp, by simp [mergeStep, hg, ho]⟩

theorem mergeStep_cache (overlay : List (String × PlayerData)) (now : Int)
    (fetch : String → Option PlayerData)
    (st : List (String × PlayerData) × PlayerCache × List String) (x : String) :
    (∃ pd, (mergeStep overlay now fetch st x).2.1 = (st.2.1).Set x pd now)
    ∨ (mergeStep overlay now fetch st x).2.1 = st.2.1 := by
  rcases hg : ((st.2.1).Get x now).1 with _ | d
  · rcases ho : alLookup overlay x with _ | bp
    · rcases hf : fetch x with _ | pd
      · right; simp [mergeStep, hg, ho, hf]
      · left; exact ⟨pd, by simp [mergeStep, hg, ho, hf]⟩
    · right; simp [mergeStep, hg, ho]
  · right; rcases ho : alLookup overlay x with _ | bp <;> simp [mergeStep, hg, ho]

theorem mergeStep_get_ne (overlay : List (String × PlayerData)) (now : Int)
    (fetch : String → Option PlayerData)
    (st : List (String × PlayerData) × PlayerCache × List String) (x id : String)
    (h : id ≠ x) :
    (((mergeStep overlay now fetch st x).2.1).Get id now).1 = ((st.2.1).Get id now).1 := by
  rcases mergeStep_cache overlay now fetch st x with ⟨pd, hc⟩ | hc
  · rw [hc]; exact get_set_ne _ _ _ _ _ _ h
  · rw [hc]

theorem mergeFold_players_notmem (overlay : List (String × PlayerData)) (now : Int)
    (fetch : String → Option PlayerData) :
    ∀ (ids : List String) (id : String), id ∉ ids →
    ∀ (st : List (String × PlayerData) × PlayerCache × List String),
    alLookup (ids.foldl (mergeStep overlay now fetch) st).1 id = alLookup st.1 id := by
  intro ids
  induction ids with
  | nil => intro id _ st; rfl
  | cons x xs ih =>
    intro id h st
    have hx : id ≠ x := fun hc => h (hc ▸ List.mem_cons_self x xs)
    have h' : id ∉ xs := fun hc => h (List.mem_cons_of_mem x hc)
    rw [List.foldl_cons, ih id h']
    rcases mergeStep_fst overlay now fetch st x with ⟨v, hv⟩ | hv
    · rw [hv, alLookup_cons]
      have hb : (x == id) = false := beq_eq_false_iff_ne.mpr (fun hc => hx hc.symm)
      rw [hb]
      simp
    · rw [hv]

theorem mergeFold_cache_notmem (overlay : List (String × PlayerData)) (now : Int)
    (fetch : String → Option PlayerData) :
    ∀ (ids : List String) (id : String), id ∉ ids →
    ∀ (st : List (String × PlayerData) × PlayerCache × List String),
    alLookup ((ids.foldl (mergeStep overlay now fetch) st).2.1).players id =
      alLookup (st.2.1).players id := by
  intro ids
  induction ids with
  | nil => intro id _ st; rfl
  | cons x xs ih =>
    intro id h st
    have hx : id ≠ x := fun hc => h (hc ▸ List.mem_cons_self x xs)
    have h' : id ∉ xs := fun hc => h (List.mem_cons_of_mem x hc)
    rw [List.foldl_cons, ih id h']
    rcases mergeStep_cache overlay now fetch st x with ⟨pd, hc⟩ | hc
    · rw [hc]
      exact players_set_ne _ _ _ _ _ hx
    · rw [hc]

theorem mergeFold_players_mem (overlay : List (String × PlayerData)) (now : Int)
    (fetch : String → Option PlayerData) :
    ∀ (ids : List String), ids.Nodup → ∀ id ∈ ids,
    ∀ (st : List (String × PlayerData) × PlayerCache × List String),
    alLookup (ids.foldl (mergeStep overlay now fetch) st).1 id =
      (match ((st.2.1).Get id now).1 with
       | some d =>
         some (match alLookup overlay id with
               | some bp => applyCountryOverride d bp
               | none => d)
       | none =>
         match alLookup overlay id with
         | some bp => some bp
         | none =>
           match fetch id with
           | some pd => some pd
           | none => alLookup st.1 id) := by
  intro ids
  induction ids with
  | nil => intro _ id h; cases h
  | cons x xs ih =>
    intro hnd id hmem st
    have hnd' := hnd.of_cons
    have hxnot := (List.nodup_cons.mp hnd).1
    rw [List.foldl_cons]
    rcases List.mem_cons.mp hmem with rfl | hmem'
    · rw [mergeFold_players_notmem overlay now fetch xs id hxnot]
      rcases hg : ((st.2.1).Get id now).1 with _ | d
      · rcases ho : alLookup overlay id with _ | bp
        · rcases hf : fetch id with _ | pd
          · simp [mergeStep, hg, ho, hf]
          · simp [mergeStep, hg, ho, hf, alLookup_cons]
        · simp [mergeStep, hg, ho, alLookup_cons]
      · rcases ho : alLookup overlay id with _ | bp
        · simp [mergeStep, hg, ho, alLookup_cons]
        · simp [mergeStep, hg, ho, alLookup_cons]
    · have hx : id ≠ x := fun hc => hxnot (hc ▸ hmem')
      rw [ih hnd' id hmem' (mergeStep overlay now fetch st x)]
      rw [mergeStep_get_ne overlay now fetch st x id hx]
      rcases mergeStep_fst overlay now fetch st x with ⟨v, hv⟩ | hv
      · rw [hv, alLookup_cons]
        have hb : (x == id) = false := beq_eq_false_iff_ne.mpr (fun hc => hx hc.symm)
        rw [hb]
        simp
      · rw [hv]

theorem mergeFold_cache_mem (overlay : List (String × PlayerData)) (now : Int)
    (fetch : String → Option PlayerData) :
    ∀ (ids : List String), ids.Nodup → ∀ id ∈ ids,
    ∀ (st : List (String × PlayerData) × PlayerCache × List String) (pd : PlayerData),
    ((st.2.1).Get id now).1 = none → alLookup overlay id = none → fetch id = some pd →
    alLookup ((ids.foldl (mergeStep overlay now fetch) st).2.1).players id =
      some ⟨pd, now⟩ := by
  intro ids
  induction ids with
  | nil => intro _ id h; cases h
  | cons x xs ih =>
    intro hnd id hmem st pd hg ho hf
    have hnd' := hnd.of_cons
    have hxnot := (List.nodup_cons.mp hnd).1
    rw [List.foldl_cons]
    rcases List.mem_cons.mp hmem with rfl | hmem'
    · rw [mergeFold_cache_notmem overlay now fetch xs id hxnot]
      have hs : (mergeStep overlay now fetch st id).2.1 = (st.2.1).Set id pd now := by
        simp [mergeStep, hg, ho, hf]
      rw [hs]
      simp [PlayerCache.Set, alLookup_cons]
    · have hx : id ≠ x := fun hc => hxnot (hc ▸ hmem')
      apply ih hnd' id hmem'
      · rw [mergeStep_get_ne overlay now fetch st x id hx]
        exact hg
      · exact ho
      · exact hf

/-- Claim C1: in the cache-load merge of `run`, for every distinct
user-kind entrant id of the loaded snapshot — if the player cache holds
a fresh record, the merged record is that record with display name and
name style intact, the overlay's country code (when present) overriding
its country code; if the player cache has no record, the overlay record
is used as-is; if neither exists, the record returned by the remote
fetch is used and stored into the player cache. -/
theorem merge_precedence (runs : List RunEntry) (overlay : List (String × PlayerData))
    (c : PlayerCache) (now : Int) (fetch : String → Option PlayerData) (id : String)
    (hid : id ∈ collectUserIDs runs) :
    (∀ d bp, (c.Get id now).1 = some d → alLookup overlay id = some bp →
      alLookup (runMergePlayers runs overlay c now fetch).1 id =
        some (applyCountryOverride d bp)
      ∧ (applyCountryOverride d bp).names = d.names
      ∧ (applyCountryOverride d bp).nameStyle = d.nameStyle
      ∧ ∀ loc ctry, bp.location = some loc → loc.country = some ctry →
          (applyCountryOverride d bp).location = some ⟨some ctry⟩)
    ∧ (∀ d, (c.Get id now).1 = some d → alLookup overlay id = none →
        alLookup (runMergePlayers runs overlay c now fetch).1 id = some d)
    ∧ (∀ bp, (c.Get id now).1 = none → alLookup overlay id = some bp →
        alLookup (runMergePlayers runs overlay c now fetch).1 id = some bp)
    ∧ ((c.Get id now).1 = none → alLookup overlay id = none →
        alLookup (runMergePlayers runs overlay c now fetch).1 id = fetch id
        ∧ ∀ pd, fetch id = some pd →
            alLookup ((runMergePlayers runs overlay c now fetch).2.1).players id =
              some ⟨pd, now⟩) := by
  have hnd : (collectUserIDs runs).Nodup := by
    unfold collectUserIDs
    exact List.nodup_dedup _
  have hmain : alLookup (runMergePlayers runs overlay c now fetch).1 id =
      (match (c.Get id now).1 with
       | some d =>
         some (match alLookup overlay id with
               | some bp => applyCountryOverride d bp
               | none => d)
       | none =>
         match alLookup overlay id with
         | some bp => some bp
         | none =>
           match fetch id with
           | some pd => some pd
           | none => none) :=
    mergeFold_players_mem overlay now fetch (collectUserIDs runs) hnd id hid ([], c, [])
  refine ⟨?_, ?_, ?_, ?_⟩
  · intro d bp hg ho
    refine ⟨?_, ?_, ?_, ?_⟩
    · rw [hmain]
      simp [hg, ho]
    · cases hbl : bp.location with
      | none => simp [applyCountryOverride, hbl]
      | some loc =>
        cases hlc : loc.country with
        | none => simp [applyCountryOverride, hbl, hlc]
        | some ctry => simp [applyCountryOverride, hbl, hlc]
    · cases hbl : bp.location with
      | none => simp [applyCountryOverride, hbl]
      | some loc =>
        cases hlc : loc.country with
        | none => simp [applyCountryOverride, hbl, hlc]
        | some ctry => simp [applyCountryOverride, hbl, hlc]
    · intro loc ctry hl hc2
      simp [applyCountryOverride, hl, hc2]
  · intro d hg ho
    rw [hmain]
    simp [hg, ho]
  · intro bp hg ho
    rw [hmain]
    simp [hg, ho]
  · intro hg ho
    constructor
    · rw [hmain]
      rcases hf : fetch id with _ | pd <;> simp [hg, ho, hf]
    · intro pd hf
      rw [runMergePlayers]
      exact mergeFold_cache_mem overlay now fetch (collectUserIDs runs) hnd id hid
        ([], c, []) pd hg ho hf

/-- Witness for C1 at concrete fixtures: the cached entrant `pa` keeps
the player-cache name and style but takes the overlay's country code,
and the uncached entrant `pb` is fetched and stored into the player
cache. -/
theorem merge_precedence_witness :
    alLookup (runMergePlayers mergeRunsW mergeOverlayW mergeCacheW 1000 mergeFetchW).1 "pa" =
      some (applyCountryOverride pdJsonW pdCsvW)
    ∧ (applyCountryOverride pdJsonW pdCsvW).names = pdJsonW.names
    ∧ (applyCountryOverride pdJsonW pdCsvW).nameStyle = pdJsonW.nameStyle
    ∧ (applyCountryOverride pdJsonW pdCsvW).location = some ⟨some "us"⟩
    ∧ alLookup (runMergePlayers mergeRunsW mergeOverlayW mergeCacheW 1000 mergeFetchW).1 "pb" =
        mergeFetchW "pb"
    ∧ alLookup ((runMergePlayers mergeRunsW mergeOverlayW mergeCacheW 1000 mergeFetchW).2.1).players "pb" =
        some ⟨pdFetchedW, 1000⟩ := by
  have h1 := (merge_precedence mergeRunsW mergeOverlayW mergeCacheW 1000 mergeFetchW "pa"
    (by decide)).1 pdJsonW pdCsvW (by decide) (by decide)
  have h4 := (merge_precedence mergeRunsW mergeOverlayW mergeCacheW 1000 mergeFetchW "pb"
    (by decide)).2.2.2 (by decide) (by decide)
  exact ⟨h1.1, h1.2.1, h1.2.2.1, h1.2.2.2 ⟨some "us"⟩ "us" (by decide) (by decide),
    h4.1, h4.2 pdFetchedW (by decide)⟩

end SrExhibit
